import Mathlib

/-! Verification of the RaySports sales-dashboard pipeline (app.py).

The embedding models the filtering-and-aggregation pipeline: the record
loader (`load_data`), the conjunctive filter (`filtered_df`, line 87), the
scalar metrics (`current_sales`, `total_profit`, `margin`, `progress_ratio`,
`rem_to_goal`, lines 123-166), and the groupby aggregations feeding the
charts (`monthly_perf`, line 174; `brand_sales` and `top_5`, lines 199-200).
Dataframes become lists of records, currency amounts become rationals, and
the pandas boolean-mask filter becomes `List.filter`. -/

/-- A calendar date, as carried by the two date columns. -/
structure Date where
  year : Int
  month : Nat
  day : Nat
deriving DecidableEq, Repr

/-- One transaction row after `load_data`: the seven retained source columns
plus the four derived columns (Year, MonthNum, MonthName, Profit). -/
structure Record where
  invoiceDate : Date
  salesOrderDate : Date
  platform : String
  brand : String
  orderStatus : String
  quantity : ℚ
  salesAmount : ℚ
  costPrice : ℚ
  year : Int
  monthNum : Nat
  monthName : String
  profit : ℚ
deriving DecidableEq, Repr

/-- The three sidebar selections: `year_filter`, `selected_months`,
`platform_filter`. -/
structure FilterSelection where
  years : List Int
  months : List String
  platforms : List String
deriving DecidableEq, Repr

/-- app.py line 87: the boolean-mask filter
`df[(Year.isin(year_filter)) & (MonthName.isin(selected_months)) & (Platform.isin(platform_filter))]`. -/
def filtered_df (df : List Record) (sel : FilterSelection) : List Record :=
  df.filter (fun r =>
    sel.years.contains r.year && sel.months.contains r.monthName &&
      sel.platforms.contains r.platform)

/-- app.py line 123: `current_sales = filtered_df[:Sales Amount].sum()`. -/
def current_sales (view : List Record) : ℚ :=
  (view.map Record.salesAmount).sum

/-- app.py line 151: `total_profit = filtered_df[:Profit].sum()`. -/
def total_profit (view : List Record) : ℚ :=
  (view.map Record.profit).sum

/-- app.py line 152: `margin = total_profit / current_sales * 100 if current_sales > 0 else 0`. -/
def margin (view : List Record) : ℚ :=
  if current_sales view > 0 then total_profit view / current_sales view * 100
  else 0

/-- app.py line 126: `progress_ratio = current_sales / sales_target if sales_target > 0 else 0`. -/
def progress_ratio (view : List Record) (target : ℚ) : ℚ :=
  if target > 0 then current_sales view / target else 0

/-- app.py line 159: `rem_to_goal = max(sales_target - current_sales, 0)`. -/
def rem_to_goal (view : List Record) (target : ℚ) : ℚ :=
  max (target - current_sales view) 0

/-- app.py lines 165-166: the surplus figure `current_sales - sales_target`
is shown only in the branch where `rem_to_goal` is not positive; outside that
branch the surplus shown is nothing, modelled as 0. -/
def surplus (view : List Record) (target : ℚ) : ℚ :=
  if rem_to_goal view target > 0 then 0 else current_sales view - target

/-- The three records of the worked example in the spec (section 8). -/
def rec1 : Record :=
  { invoiceDate := ⟨2023, 1, 5⟩, salesOrderDate := ⟨2023, 1, 5⟩
    platform := "Amazon", brand := "Nike", orderStatus := "Delivered"
    quantity := 1, salesAmount := 100, costPrice := 60
    year := 2023, monthNum := 1, monthName := "Jan", profit := 40 }

def rec2 : Record :=
  { invoiceDate := ⟨2023, 2, 9⟩, salesOrderDate := ⟨2023, 2, 9⟩
    platform := "eBay", brand := "Nike", orderStatus := "Delivered"
    quantity := 1, salesAmount := 200, costPrice := 150
    year := 2023, monthNum := 2, monthName := "Feb", profit := 50 }

def rec3 : Record :=
  { invoiceDate := ⟨2024, 1, 3⟩, salesOrderDate := ⟨2024, 1, 3⟩
    platform := "Amazon", brand := "Adidas", orderStatus := "Delivered"
    quantity := 1, salesAmount := 300, costPrice := 100
    year := 2024, monthNum := 1, monthName := "Jan", profit := 200 }

def sampleDF : List Record := [rec1, rec2, rec3]

def exampleSel : FilterSelection :=
  { years := [2023], months := ["Jan", "Feb"], platforms := ["Amazon", "eBay"] }

/-- C1: `filtered_df` keeps exactly the records whose year, month name and
platform are all in the respective selections (a conjunction of the three
membership predicates, not a disjunction), and the survivors appear in the
same relative order as in the dataset (the result is a sublist). -/
theorem filtered_df_conjunction_order (df : List Record) (sel : FilterSelection) :
    (filtered_df df sel).Sublist df ∧
      ∀ r, r ∈ filtered_df df sel ↔
        r ∈ df ∧ r.year ∈ sel.years ∧ r.monthName ∈ sel.months ∧
          r.platform ∈ sel.platforms := by
  refine ⟨List.filter_sublist _, fun r => ?_⟩
  simp [filtered_df, List.mem_filter, and_assoc]

/-- C2: if any of the three selection lists is empty, the filtered view is
empty. -/
theorem filtered_df_empty_selection (df : List Record) (sel : FilterSelection)
    (h : sel.years = [] ∨ sel.months = [] ∨ sel.platforms = []) :
    filtered_df df sel = [] := by
  rcases h with h | h | h <;> simp [filtered_df, List.filter_eq_nil_iff, h]

theorem filtered_df_empty_selection_witness :
    filtered_df sampleDF
      { years := [], months := ["Jan"], platforms := ["Amazon"] } = [] :=
  filtered_df_empty_selection sampleDF _ (Or.inl rfl)

/-- C3: `margin` is total profit over total sales times 100 when total sales
is positive and 0 when total sales is 0; `progress_ratio` is total sales over
the target when the target is positive and 0 when the target is at most 0.
Both are total functions of type ℚ, so no exception or NaN can arise. -/
theorem margin_progress_ratio_defined (view : List Record) (target : ℚ) :
    (current_sales view = 0 → margin view = 0) ∧
    (0 < current_sales view →
      margin view = total_profit view / current_sales view * 100) ∧
    (target ≤ 0 → progress_ratio view target = 0) ∧
    (0 < target → progress_ratio view target = current_sales view / target) := by
  refine ⟨fun h => ?_, fun h => ?_, fun h => ?_, fun h => ?_⟩
  · simp [margin, h]
  · simp [margin, h]
  · simp [progress_ratio, not_lt.mpr h]
  · simp [progress_ratio, h]

theorem margin_progress_ratio_defined_witness :
    margin (filtered_df sampleDF exampleSel) = 30 ∧
    progress_ratio (filtered_df sampleDF exampleSel) 250 = 6 / 5 := by
  have hview : filtered_df sampleDF exampleSel = [rec1, rec2] := by
    simp [filtered_df, sampleDF, exampleSel, rec1, rec2, rec3]
  have hS : current_sales (filtered_df sampleDF exampleSel) = 300 := by
    rw [hview]; norm_num [current_sales, rec1, rec2]
  have hP : total_profit (filtered_df sampleDF exampleSel) = 90 := by
    rw [hview]; norm_num [total_profit, rec1, rec2]
  have h := margin_progress_ratio_defined (filtered_df sampleDF exampleSel) 250
  constructor
  · rw [h.2.1 (by rw [hS]; norm_num), hS, hP]; norm_num
  · rw [h.2.2.2 (by norm_num), hS]; norm_num

/-- C4: the gap is `max (target - totalSales) 0`, the surplus equals
`max (totalSales - target) 0`, the two are never both positive, and both are
zero exactly when total sales equals the target. -/
theorem gap_surplus_exclusive (view : List Record) (target : ℚ) :
    rem_to_goal view target = max (target - current_sales view) 0 ∧
    surplus view target = max (current_sales view - target) 0 ∧
    ¬(0 < rem_to_goal view target ∧ 0 < surplus view target) ∧
    ((rem_to_goal view target = 0 ∧ surplus view target = 0) ↔
      current_sales view = target) := by
  refine ⟨rfl, ?_, ?_, ?_⟩ <;>
    rcases le_or_lt target (current_sales view) with hle | hlt
  · have hrem : rem_to_goal view target = 0 := by
      unfold rem_to_goal; rw [max_eq_right]; linarith
    rw [surplus, hrem, max_eq_left (by linarith)]
    simp
  · have hrem : rem_to_goal view target = target - current_sales view := by
      unfold rem_to_goal; rw [max_eq_left]; linarith
    rw [surplus, hrem, max_eq_right (by linarith)]
    rw [if_pos (by linarith)]
  · rintro ⟨hg, hs⟩
    rw [surplus, if_pos hg] at hs
    exact lt_irrefl 0 hs
  · rintro ⟨hg, hs⟩
    have : 0 < rem_to_goal view target := by
      unfold rem_to_goal; rw [max_eq_left (by linarith)]; linarith
    rw [surplus, if_pos this] at hs
    exact absurd hg (by rw [rem_to_goal, max_eq_left (by linarith)]; intro h; linarith)
  · constructor
    · rintro ⟨hg, hs⟩
      rw [surplus, hg] at hs
      simp at hs
      linarith [sub_eq_zero.mp hs]
    · intro h
      have hrem : rem_to_goal view target = 0 := by
        unfold rem_to_goal; rw [h, sub_self]; simp
      refine ⟨hrem, ?_⟩
      rw [surplus, hrem, h]
      simp
  · constructor
    · rintro ⟨hg, _⟩
      exfalso
      rw [rem_to_goal, max_eq_left (by linarith)] at hg
      linarith
    · intro h; exfalso; rw [h] at hlt; exact lt_irrefl _ hlt

theorem gap_surplus_exclusive_witness :
    surplus (filtered_df sampleDF exampleSel) 250 = 50 := by
  have hview : filtered_df sampleDF exampleSel = [rec1, rec2] := by
    simp [filtered_df, sampleDF, exampleSel, rec1, rec2, rec3]
  have hS : current_sales (filtered_df sampleDF exampleSel) = 300 := by
    rw [hview]; norm_num [current_sales, rec1, rec2]
  rw [(gap_surplus_exclusive (filtered_df sampleDF exampleSel) 250).2.1, hS,
    max_eq_left (by norm_num)]
  norm_num

/-- C7: the filter is idempotent: filtering an already-filtered view again
with the same selection yields the same view. -/
theorem filtered_df_idempotent (df : List Record) (sel : FilterSelection) :
    filtered_df (filtered_df df sel) sel = filtered_df df sel :=
  List.filter_eq_self.mpr (fun _ ha => (List.mem_filter.mp ha).2)

/-- The selection holding exactly the years, month names and platforms that
occur in the dataset (the sidebar defaults: every option selected). -/
def fullSelection (df : List Record) : FilterSelection :=
  { years := (df.map Record.year).dedup
    months := (df.map Record.monthName).dedup
    platforms := (df.map Record.platform).dedup }

/-- C8: filtering with the full selection keeps every record, so the total
sales amount of the filtered view equals that of the whole dataset. -/
theorem full_selection_preserves_total (df : List Record) :
    current_sales (filtered_df df (fullSelection df)) = current_sales df := by
  have h : filtered_df df (fullSelection df) = df := by
    refine List.filter_eq_self.mpr (fun r hr => ?_)
    have h1 : r.year ∈ (df.map Record.year).dedup :=
      List.mem_dedup.mpr (List.mem_map_of_mem _ hr)
    have h2 : r.monthName ∈ (df.map Record.monthName).dedup :=
      List.mem_dedup.mpr (List.mem_map_of_mem _ hr)
    have h3 : r.platform ∈ (df.map Record.platform).dedup :=
      List.mem_dedup.mpr (List.mem_map_of_mem _ hr)
    simp [fullSelection, h1, h2, h3]
  rw [h]

/-- Sum of `f` over the records of `l` lying in the fiber of `k` under `key`:
the per-group sum a pandas `groupby(key)[col].sum()` produces for group `k`. -/
def fiberSum [DecidableEq κ] (key : α → κ) (f : α → ℚ) (l : List α) (k : κ) : ℚ :=
  ((l.filter (fun a => decide (key a = k))).map f).sum

theorem sum_map_filter_add (p : α → Bool) (f : α → ℚ) (l : List α) :
    ((l.filter p).map f).sum + ((l.filter (fun a => !p a)).map f).sum
      = (l.map f).sum := by
  induction l with
  | nil => simp
  | cons a l ih =>
    cases hpa : p a <;> simp [List.filter_cons, hpa] <;> linarith

/-- Fibers over a duplicate-free list of keys covering a list partition its
sum: the per-group sums add up to the grand total. -/
theorem sum_fiberSum [DecidableEq κ] (key : α → κ) (f : α → ℚ) (ks : List κ) :
    ∀ l : List α, (∀ a ∈ l, key a ∈ ks) → ks.Nodup →
      (ks.map (fiberSum key f l)).sum = (l.map f).sum := by
  induction ks with
  | nil =>
    intro l hcov _
    have hl : l = [] :=
      List.eq_nil_iff_forall_not_mem.mpr
        (fun a ha => absurd (hcov a ha) (List.not_mem_nil _))
    simp [hl]
  | cons k ks ih =>
    intro l hcov hnd
    have hknot : k ∉ ks := (List.nodup_cons.mp hnd).1
    have hstep : ∀ k' ∈ ks,
        fiberSum key f l k' =
          fiberSum key f (l.filter (fun a => !decide (key a = k))) k' := by
      intro k' hk'
      unfold fiberSum
      rw [List.filter_filter]
      refine congrArg _ (congrArg _ (List.filter_congr (fun a _ => ?_)).symm)
      cases hak : decide (key a = k') with
      | false => simp
      | true =>
        have : key a ≠ k := by
          have := of_decide_eq_true hak
          intro hk; exact hknot (hk ▸ this ▸ hk')
        simp [this]
    have hcov' : ∀ a ∈ l.filter (fun a => !decide (key a = k)), key a ∈ ks := by
      intro a ha
      have hmem := List.mem_filter.mp ha
      have hne : key a ≠ k := by simpa using hmem.2
      rcases List.mem_cons.mp (hcov a hmem.1) with h | h
      · exact absurd h hne
      · exact h
    calc (List.map (fiberSum key f l) (k :: ks)).sum
        = fiberSum key f l k + (ks.map (fiberSum key f l)).sum := by simp
      _ = fiberSum key f l k +
            (ks.map (fiberSum key f (l.filter (fun a => !decide (key a = k))))).sum := by
          rw [List.map_congr_left hstep]
      _ = fiberSum key f l k +
            ((l.filter (fun a => !decide (key a = k))).map f).sum := by
          rw [ih _ hcov' (List.nodup_cons.mp hnd).2]
      _ = (l.map f).sum := by
          have := sum_map_filter_add (fun a => decide (key a = k)) f l
          unfold fiberSum
          linarith

/-- The (MonthNum, MonthName) grouping key of `monthly_perf`. -/
def monthKey (r : Record) : Nat × String := (r.monthNum, r.monthName)

/-- Ascending lexicographic comparison on (month number, month name): the
order in which the groupby emits its keys. -/
def keyLe (a b : Nat × String) : Bool :=
  decide (a.1 < b.1) || (decide (a.1 = b.1) && decide (a.2 ≤ b.2))

theorem keyLe_trans (a b c : Nat × String) :
    keyLe a b → keyLe b c → keyLe a c := by
  simp only [keyLe, Bool.or_eq_true, Bool.and_eq_true, decide_eq_true_eq]
  rintro (h | ⟨h1, h2⟩) <;> rintro (h' | ⟨h1', h2'⟩)
  · exact Or.inl (Nat.lt_trans h h')
  · exact Or.inl (h1' ▸ h)
  · exact Or.inl (h1 ▸ h')
  · exact Or.inr ⟨h1.trans h1', le_trans h2 h2'⟩

theorem keyLe_total (a b : Nat × String) : keyLe a b || keyLe b a := by
  simp only [keyLe, Bool.or_eq_true, Bool.and_eq_true, decide_eq_true_eq]
  rcases Nat.lt_trichotomy a.1 b.1 with h | h | h
  · exact Or.inl (Or.inl h)
  · rcases le_total a.2 b.2 with h2 | h2
    · exact Or.inl (Or.inr ⟨h, h2⟩)
    · exact Or.inr (Or.inr ⟨h.symm, h2⟩)
  · exact Or.inr (Or.inl h)

/-- The groupby keys of `monthly_perf`: the distinct (MonthNum, MonthName)
pairs of the view, emitted in ascending key order (pandas `groupby` sorts
its group keys). -/
def monthGroups (view : List Record) : List (Nat × String) :=
  ((view.map monthKey).dedup).mergeSort keyLe

/-- One grouped row of `monthly_perf`: the key pair with the Sales Amount and
Profit sums of its group. -/
def monthEntry (view : List Record) (k : Nat × String) : Nat × String × ℚ × ℚ :=
  (k.1, k.2, fiberSum monthKey Record.salesAmount view k,
    fiberSum monthKey Record.profit view k)

/-- Comparison by MonthNum used by `.sort_values("MonthNum")`. -/
def numLe (e1 e2 : Nat × String × ℚ × ℚ) : Bool := decide (e1.1 ≤ e2.1)

/-- app.py line 174:
`filtered_df.groupby(["MonthNum", "MonthName"], as_index=False)[["Sales Amount", "Profit"]].sum().sort_values("MonthNum")`. -/
def monthly_perf (view : List Record) : List (Nat × String × ℚ × ℚ) :=
  (((monthGroups view).map (monthEntry view)).mergeSort numLe)

theorem monthGroups_sorted (view : List Record) :
    (monthGroups view).Pairwise (fun a b => keyLe a b = true) :=
  List.sorted_mergeSort keyLe_trans keyLe_total _

/-- The grouped rows are already in ascending MonthNum order, so the final
`.sort_values("MonthNum")` leaves them unchanged. -/
theorem monthly_perf_eq_map (view : List Record) :
    monthly_perf view = (monthGroups view).map (monthEntry view) := by
  refine List.mergeSort_of_sorted ?_
  refine List.pairwise_map.mpr ((monthGroups_sorted view).imp ?_)
  intro a b hab
  simp only [keyLe, Bool.or_eq_true, Bool.and_eq_true, decide_eq_true_eq] at hab
  simp only [numLe, monthEntry, decide_eq_true_eq]
  rcases hab with h | ⟨h1, _⟩
  · exact Nat.le_of_lt h
  · exact Nat.le_of_eq h1

/-- Month-name coherence: within one view, records sharing a month number
share a month name. Every dataset produced by `load_data` has this shape,
because MonthName and MonthNum are both derived from the Sales Order Date. -/
def monthCoherent (view : List Record) : Prop :=
  ∀ r ∈ view, ∀ s ∈ view, r.monthNum = s.monthNum → r.monthName = s.monthName

theorem monthGroups_keys (view : List Record) :
    ∀ k ∈ monthGroups view, ∃ r ∈ view, monthKey r = k := by
  intro k hk
  have hk' : k ∈ (view.map monthKey).dedup := List.mem_mergeSort.mp hk
  rcases List.mem_map.mp (List.mem_dedup.mp hk') with ⟨r, hr, hrk⟩
  exact ⟨r, hr, hrk⟩

theorem monthGroups_nodup (view : List Record) : (monthGroups view).Nodup :=
  ((List.mergeSort_perm _ keyLe).nodup_iff).mpr (List.nodup_dedup _)

/-- C5: `monthly_perf` has one row per (month number, month name) group of
the view, each row carrying the Sales Amount sum and Profit sum of its
group, and the rows are in strictly increasing month-number order, hence
sorted ascending with no duplicate month number. The hypothesis records
that month names are determined by month numbers, as `load_data`
guarantees. -/
theorem monthly_perf_grouping (view : List Record) (hc : monthCoherent view) :
    List.Pairwise (fun e1 e2 => e1.1 < e2.1) (monthly_perf view) ∧
    (∀ n m, (n, m) ∈ (monthly_perf view).map (fun e => (e.1, e.2.1)) ↔
        ∃ r ∈ view, r.monthNum = n ∧ r.monthName = m) ∧
    ∀ e ∈ monthly_perf view,
      e.2.2.1 = fiberSum monthKey Record.salesAmount view (e.1, e.2.1) ∧
      e.2.2.2 = fiberSum monthKey Record.profit view (e.1, e.2.1) := by
  have hmp := monthly_perf_eq_map view
  have hstrict : (monthGroups view).Pairwise (fun k1 k2 => k1.1 < k2.1) := by
    have hand := (monthGroups_sorted view).and (monthGroups_nodup view)
    refine hand.imp_of_mem ?_
    intro a b ha hb hab
    rcases hab with ⟨hle, hne⟩
    simp only [keyLe, Bool.or_eq_true, Bool.and_eq_true, decide_eq_true_eq] at hle
    rcases hle with h | ⟨h1, _⟩
    · exact h
    · exfalso
      rcases monthGroups_keys view a ha with ⟨r, hr, hrk⟩
      rcases monthGroups_keys view b hb with ⟨s, hs, hsk⟩
      subst hrk; subst hsk
      exact hne (Prod.ext h1 (hc r hr s hs h1))
  refine ⟨?_, ?_, ?_⟩
  · rw [hmp]
    exact List.pairwise_map.mpr hstrict
  · intro n m
    rw [hmp, List.map_map]
    have hid : ((fun e : Nat × String × ℚ × ℚ => (e.1, e.2.1)) ∘ monthEntry view)
        = id := by
      funext k; rfl
    rw [hid, List.map_id]
    simp only [monthGroups, List.mem_mergeSort, List.mem_dedup, List.mem_map,
      monthKey, Prod.ext_iff]
  · rw [hmp]
    intro e he
    rcases List.mem_map.mp he with ⟨k, _, rfl⟩
    exact ⟨rfl, rfl⟩

theorem monthly_perf_grouping_witness :
    List.Pairwise (fun e1 e2 => e1.1 < e2.1) (monthly_perf sampleDF) :=
  (monthly_perf_grouping sampleDF (by unfold monthCoherent; decide)).1

/-- Ascending comparison on brand names: the key order of the brand groupby. -/
def brandLe (a b : String) : Bool := decide (a ≤ b)

/-- The groupby keys of `brand_sales`: the distinct brands of the view in
ascending order (pandas `groupby` sorts its group keys). -/
def brandGroups (view : List Record) : List String :=
  ((view.map Record.brand).dedup).mergeSort brandLe

/-- app.py line 199:
`brand_sales = filtered_df.groupby("Brand")["Sales Amount"].sum().reset_index()`. -/
def brand_sales (view : List Record) : List (String × ℚ) :=
  (brandGroups view).map
    (fun b => (b, fiberSum Record.brand Record.salesAmount view b))

/-- C10: both the month grouping and the brand grouping partition the rows
of the view, so their per-group Sales Amount sums add up to the total sales
of the view. -/
theorem aggregation_preserves_total (view : List Record) :
    ((monthly_perf view).map (fun e => e.2.2.1)).sum = current_sales view ∧
    ((brand_sales view).map (fun e => e.2)).sum = current_sales view := by
  constructor
  · rw [monthly_perf_eq_map, List.map_map]
    have hperm :
        ((monthGroups view).map (fiberSum monthKey Record.salesAmount view)).sum
          = (((view.map monthKey).dedup).map
              (fiberSum monthKey Record.salesAmount view)).sum :=
      (((List.mergeSort_perm _ keyLe)).map _).sum_eq
    have hcov : ∀ a ∈ view, monthKey a ∈ (view.map monthKey).dedup :=
      fun a ha => List.mem_dedup.mpr (List.mem_map_of_mem _ ha)
    have hpart := sum_fiberSum monthKey Record.salesAmount
      ((view.map monthKey).dedup) view hcov (List.nodup_dedup _)
    calc (List.map ((fun e : Nat × String × ℚ × ℚ => e.2.2.1) ∘ monthEntry view)
            (monthGroups view)).sum
        = ((monthGroups view).map
            (fiberSum monthKey Record.salesAmount view)).sum := rfl
      _ = (((view.map monthKey).dedup).map
            (fiberSum monthKey Record.salesAmount view)).sum := hperm
      _ = (view.map Record.salesAmount).sum := hpart
      _ = current_sales view := rfl
  · rw [brand_sales, List.map_map]
    have hperm :
        ((brandGroups view).map (fiberSum Record.brand Record.salesAmount view)).sum
          = (((view.map Record.brand).dedup).map
              (fiberSum Record.brand Record.salesAmount view)).sum :=
      (((List.mergeSort_perm _ brandLe)).map _).sum_eq
    have hcov : ∀ a ∈ view, a.brand ∈ (view.map Record.brand).dedup :=
      fun a ha => List.mem_dedup.mpr (List.mem_map_of_mem _ ha)
    have hpart := sum_fiberSum Record.brand Record.salesAmount
      ((view.map Record.brand).dedup) view hcov (List.nodup_dedup _)
    calc (List.map ((fun e : String × ℚ => e.2) ∘
            fun b => (b, fiberSum Record.brand Record.salesAmount view b))
            (brandGroups view)).sum
        = ((brandGroups view).map
            (fiberSum Record.brand Record.salesAmount view)).sum := rfl
      _ = (((view.map Record.brand).dedup).map
            (fiberSum Record.brand Record.salesAmount view)).sum := hperm
      _ = (view.map Record.salesAmount).sum := hpart
      _ = current_sales view := rfl

/-- Descending comparison by total Sales Amount. `nlargest(5, col)` keeps the
first five rows of the stable descending sort by `col`, resolving ties in
favour of earlier rows. -/
def salesGe (a b : String × ℚ) : Bool := decide (b.2 ≤ a.2)

theorem salesGe_trans (a b c : String × ℚ) :
    salesGe a b → salesGe b c → salesGe a c := by
  simp only [salesGe, decide_eq_true_eq]
  exact fun h1 h2 => le_trans h2 h1

theorem salesGe_total (a b : String × ℚ) : salesGe a b || salesGe b a := by
  simp only [salesGe, Bool.or_eq_true, decide_eq_true_eq]
  exact le_total b.2 a.2

/-- app.py line 200, the kept rows of
`top_5 = brand_sales.nlargest(5, "Sales Amount")["Brand"].tolist()`. -/
def top5rows (view : List Record) : List (String × ℚ) :=
  ((brand_sales view).mergeSort salesGe).take 5

/-- The brand column of the kept rows: the `top_5` list itself. -/
def top_5 (view : List Record) : List String := (top5rows view).map Prod.fst

theorem brand_sales_val (view : List Record) :
    ∀ e ∈ brand_sales view,
      e.2 = fiberSum Record.brand Record.salesAmount view e.1 := by
  intro e he
  rcases List.mem_map.mp he with ⟨b, _, rfl⟩
  rfl

/-- Stability of the descending sort on any class of rows that compare both
ways (in particular rows sharing one total): the class comes out of the sort
exactly as it went in. -/
theorem filter_mergeSort_salesGe (view : List Record) (p : String × ℚ → Bool)
    (hp : ∀ a b, p a → p b → salesGe a b) :
    ((brand_sales view).mergeSort salesGe).filter p
      = (brand_sales view).filter p := by
  have hc_pw : ((brand_sales view).filter p).Pairwise
      (fun a b => salesGe a b = true) :=
    List.pairwise_of_forall_mem_list
      (fun a ha b hb => hp a b (List.of_mem_filter ha) (List.of_mem_filter hb))
  have h1 : ((brand_sales view).filter p).Sublist
      ((brand_sales view).mergeSort salesGe) :=
    List.sublist_mergeSort salesGe_trans salesGe_total hc_pw
      (List.filter_sublist _)
  have h2 : ((brand_sales view).filter p).filter p
      = (brand_sales view).filter p :=
    List.filter_eq_self.mpr (fun a ha => List.of_mem_filter ha)
  have h3 : ((brand_sales view).filter p).Sublist
      (((brand_sales view).mergeSort salesGe).filter p) := by
    have := h1.filter p
    rwa [h2] at this
  have h4 : (((brand_sales view).mergeSort salesGe).filter p).length
      = ((brand_sales view).filter p).length :=
    (((List.mergeSort_perm _ salesGe)).filter p).length_eq
  exact (h3.eq_of_length h4.symm).symm

/-- C6: `top_5` has exactly `min 5 (number of distinct brands)` entries, so
at most five, and fewer than five only when the view has fewer than five
distinct brands; the entries are ordered by nonincreasing total Sales
Amount; and rows with any given total appear in the original grouping
order, as a prefix of the `brand_sales` rows carrying that total (stable
selection). -/
theorem top_5_spec (view : List Record) :
    (top_5 view).length = min 5 ((view.map Record.brand).dedup).length ∧
    List.Pairwise (fun b1 b2 =>
      fiberSum Record.brand Record.salesAmount view b2 ≤
        fiberSum Record.brand Record.salesAmount view b1) (top_5 view) ∧
    ∀ v : ℚ,
      ((top5rows view).filter (fun e => decide (e.2 = v))).map Prod.fst <+:
        ((brand_sales view).filter (fun e => decide (e.2 = v))).map Prod.fst := by
  have hval : ∀ e ∈ top5rows view,
      e.2 = fiberSum Record.brand Record.salesAmount view e.1 := by
    intro e he
    have h1 : e ∈ (brand_sales view).mergeSort salesGe := List.mem_of_mem_take he
    exact brand_sales_val view e (List.mem_mergeSort.mp h1)
  refine ⟨?_, ?_, ?_⟩
  · simp [top_5, top5rows, brand_sales, brandGroups, List.length_take]
  · have hsorted : ((brand_sales view).mergeSort salesGe).Pairwise
        (fun a b => salesGe a b = true) :=
      List.sorted_mergeSort salesGe_trans salesGe_total _
    have htake : (top5rows view).Pairwise (fun a b => salesGe a b = true) :=
      List.Pairwise.sublist (List.take_sublist 5 _) hsorted
    refine List.pairwise_map.mpr (List.Pairwise.imp_of_mem ?_ htake)
    intro a b ha hb hab
    simp only [salesGe, decide_eq_true_eq] at hab
    rw [← hval a ha, ← hval b hb]
    exact hab
  · intro v
    have hp : ∀ a b : String × ℚ, decide (a.2 = v) → decide (b.2 = v) →
        salesGe a b := by
      intro a b ha hb
      simp only [decide_eq_true_eq] at ha hb
      simp only [salesGe, ha, hb, decide_eq_true_eq]
      exact le_refl v
    have heq := filter_mergeSort_salesGe view (fun e => decide (e.2 = v)) hp
    have hpre : top5rows view <+: (brand_sales view).mergeSort salesGe :=
      ⟨((brand_sales view).mergeSort salesGe).drop 5, List.take_append_drop 5 _⟩
    have hpre2 := List.IsPrefix.filter (fun e => decide (e.2 = v)) hpre
    rw [heq] at hpre2
    exact List.IsPrefix.map Prod.fst hpre2

/-- A cell of the raw spreadsheet: a date, a number, or free text. -/
inductive Cell where
  | date (d : Date)
  | num (q : ℚ)
  | txt (s : String)
deriving DecidableEq

/-- The raw tabular source: its column labels and its rows, each row mapping
a column label to the cell stored there. -/
structure RawTable where
  cols : List String
  rows : List (String → Cell)

/-- The single error kind of the core: the `try` at app.py lines 22-26
catches any loading failure (missing or unreadable file, missing column,
malformed cell). -/
inductive LoadError where
  | fileError
  | missingColumn (c : String)
  | badValue
deriving DecidableEq

/-- The seven retained columns plus Brand, selected at app.py line 15. -/
def requiredCols : List String :=
  ["Invoice Date", "Sales Order Date", "Platform", "Brand", "Order Status",
    "Quantity", "Sales Amount", "Cost Price"]

/-- `strftime("%b")`: the abbreviated month name of a month number. -/
def monthAbbrev (m : Nat) : String :=
  match m with
  | 1 => "Jan" | 2 => "Feb" | 3 => "Mar" | 4 => "Apr"
  | 5 => "May" | 6 => "Jun" | 7 => "Jul" | 8 => "Aug"
  | 9 => "Sep" | 10 => "Oct" | 11 => "Nov" | 12 => "Dec"
  | _ => ""

/-- Building one Record from one raw row: the retained cells must have the
expected shapes, and the four derived fields come from the Sales Order Date
and the amounts (app.py lines 16-19). -/
def parseRow (row : String → Cell) : Except LoadError Record :=
  match row "Invoice Date", row "Sales Order Date", row "Platform",
      row "Brand", row "Order Status", row "Quantity", row "Sales Amount",
      row "Cost Price" with
  | .date di, .date dso, .txt p, .txt b, .txt os, .num q, .num s, .num c =>
      .ok { invoiceDate := di, salesOrderDate := dso, platform := p, brand := b
            orderStatus := os, quantity := q, salesAmount := s, costPrice := c
            year := dso.year, monthNum := dso.month
            monthName := monthAbbrev dso.month, profit := s - c }
  | _, _, _, _, _, _, _, _ => .error .badValue

/-- Row-by-row construction of the dataset, stopping at the first bad row. -/
def parseRows : List (String → Cell) → Except LoadError (List Record)
  | [] => .ok []
  | row :: rest =>
    match parseRow row with
    | .error e => .error e
    | .ok r =>
      match parseRows rest with
      | .error e => .error e
      | .ok rs => .ok (r :: rs)

/-- `load_data` (app.py lines 12-20): fails when the source is absent or
unreadable, when a required column is missing (the column-subset selection at
line 15 raises a KeyError naming the first missing label), or when a cell
cannot supply the fields read from it; otherwise yields the dataset. -/
def load_data (src : Option RawTable) : Except LoadError (List Record) :=
  match src with
  | none => .error .fileError
  | some t =>
    match requiredCols.find? (fun c => !t.cols.contains c) with
    | some c => .error (.missingColumn c)
    | none => parseRows t.rows

/-- The dashboard state downstream of the `try`/`st.stop()` guard (app.py
lines 22-26): on any load failure the script stops, so no filtered view and
no metrics exist; otherwise they are computed from the loaded dataset. -/
def dashboard (src : Option RawTable) (sel : FilterSelection) (target : ℚ) :
    Option (List Record × ℚ × ℚ × ℚ) :=
  match load_data src with
  | .error _ => none
  | .ok df =>
      some (filtered_df df sel, current_sales (filtered_df df sel),
        margin (filtered_df df sel), progress_ratio (filtered_df df sel) target)

theorem parseRow_monthName (row : String → Cell) (r : Record)
    (h : parseRow row = .ok r) : r.monthName = monthAbbrev r.monthNum := by
  unfold parseRow at h
  split at h
  · cases h; rfl
  · cases h

/-- Every record of a successfully parsed run carries the month name derived
from its month number: the origin of the `monthCoherent` hypothesis. -/
theorem parseRows_monthName (rows : List (String → Cell)) :
    ∀ df : List Record, parseRows rows = .ok df →
      ∀ r ∈ df, r.monthName = monthAbbrev r.monthNum := by
  induction rows with
  | nil =>
    intro df h r hr
    cases h
    cases hr
  | cons row rest ih =>
    intro df h r hr
    unfold parseRows at h
    cases hrow : parseRow row with
    | error e => rw [hrow] at h; cases h
    | ok b =>
      rw [hrow] at h
      cases hrest : parseRows rest with
      | error e => rw [hrest] at h; cases h
      | ok bs =>
        rw [hrest] at h
        cases h
        rcases List.mem_cons.mp hr with rfl | hmem
        · exact parseRow_monthName row r hrow
        · exact ih bs hrest r hmem

/-- Any dataset produced by `load_data` satisfies the month coherence used
by the monthly-grouping theorem. -/
theorem load_data_monthCoherent (src : Option RawTable) (df : List Record)
    (h : load_data src = .ok df) : monthCoherent df := by
  intro r hr s hs hnum
  cases src with
  | none => simp [load_data] at h
  | some t =>
    simp only [load_data] at h
    cases hfind : requiredCols.find? (fun c => !t.cols.contains c) with
    | some c => rw [hfind] at h; cases h
    | none =>
      rw [hfind] at h
      rw [parseRows_monthName t.rows df h r hr,
        parseRows_monthName t.rows df h s hs, hnum]

/-- C9: a missing or unreadable source, or a source lacking any required
column (the Brand column being the instance exercised by the witness),
makes `load_data` fail with a LoadError; no dataset is produced, and the
dashboard state downstream of the halting guard is empty for every
selection and target. -/
theorem load_data_error_halts (src : Option RawTable)
    (h : src = none ∨ ∃ t, src = some t ∧ ∃ c ∈ requiredCols, c ∉ t.cols) :
    (∃ e, load_data src = .error e) ∧
      ∀ sel target, dashboard src sel target = none := by
  have herr : ∃ e, load_data src = .error e := by
    rcases h with rfl | ⟨t, rfl, c0, hc0, hmissing⟩
    · exact ⟨.fileError, rfl⟩
    · cases hfind : requiredCols.find? (fun c => !t.cols.contains c) with
      | none =>
        exfalso
        have hall := List.find?_eq_none.mp hfind c0 hc0
        simp at hall
        exact hmissing hall
      | some c =>
        refine ⟨.missingColumn c, ?_⟩
        simp only [load_data]
        rw [hfind]
  refine ⟨herr, fun sel target => ?_⟩
  rcases herr with ⟨e, he⟩
  unfold dashboard
  rw [he]

/-- A source table carrying every required column except Brand. -/
def noBrandTable : RawTable :=
  { cols := ["Invoice Date", "Sales Order Date", "Platform", "Order Status",
      "Quantity", "Sales Amount", "Cost Price"]
    rows := [] }

theorem load_data_error_halts_witness :
    ∃ e, load_data (some noBrandTable) = .error e :=
  (load_data_error_halts (some noBrandTable)
    (Or.inr ⟨noBrandTable, rfl, "Brand", by decide, by decide⟩)).1
